import Mathlib

/-!
Verification of the CalDAV client core of lshvetsov/go-webdav.

Shallow embedding conventions:
* Go strings are modelled as `List Char` (the code only ever indexes and
  slices them bytewise on ASCII data).
* `time.Time` values are modelled as `Int` instants; Go's `t1.After(t2)`
  is strict `>`, and the zero value is `0`.
* `*T` pointer arguments are modelled as `Option`; a `nil` dereference is
  modelled by an `Option`-valued function returning `none` (a Go panic).
* The external iCalendar codec (`github.com/emersion/go-ical`) is a black
  box: a decoded document is an opaque `ICalendar` value and the decoder is
  a parameter `dec : List Char → Except (List Char) ICalendar`, mirroring
  `ical.NewDecoder(r).Decode()` which returns a document or an error.
-/

namespace Caldav

/-- Opaque model of a decoded `*ical.Calendar` document.  The CalDAV layer
never looks inside it; it only passes it around, so a single opaque payload
field suffices. -/
structure ICalendar where
  raw : List Char
deriving DecidableEq, Repr

/-- Model of `caldav.CalendarObject` (fields in source order:
Path, ModTime, ContentLength, ETag, Data). `Data` is `none` when the Go
field is the nil pointer. -/
structure CalendarObject where
  path : List Char
  modTime : Int
  contentLength : Int
  etag : List Char
  data : Option ICalendar
deriving DecidableEq, Repr

/-- Model of `caldav.ConflictDecision` (conflict.go): the four enumerated
decision values. -/
inductive ConflictDecision where
  | UseLocal
  | UseRemote
  | Merge
  | Skip
deriving DecidableEq, Repr

/-- Model of `(*LastModifiedWinsResolver).Resolve` (conflict.go): nil
checks first (both nil → Skip, local nil → UseRemote, remote nil →
UseLocal), then `local.ModTime.After(remote.ModTime)` → UseLocal,
`remote.ModTime.After(local.ModTime)` → UseRemote, tie → UseLocal. -/
def lastModifiedWinsResolve (local_ remote : Option CalendarObject) : ConflictDecision :=
  match local_, remote with
  | none, none => .Skip
  | none, some _ => .UseRemote
  | some _, none => .UseLocal
  | some l, some r =>
    if l.modTime > r.modTime then .UseLocal
    else if r.modTime > l.modTime then .UseRemote
    else .UseLocal

/-- Model of `(*AlwaysUseLocalResolver).Resolve` (conflict.go): the only
check in the source is `if local == nil { return UseRemote }`; the remote
argument is ignored (its Go parameter is the blank identifier). -/
def alwaysUseLocalResolve (local_ _remote : Option CalendarObject) : ConflictDecision :=
  match local_ with
  | none => .UseRemote
  | some _ => .UseLocal

/-- Model of `(*AlwaysUseRemoteResolver).Resolve` (conflict.go): the only
check in the source is `if remote == nil { return UseLocal }`; the local
argument is ignored. -/
def alwaysUseRemoteResolve (_local : Option CalendarObject) (remote : Option CalendarObject) : ConflictDecision :=
  match remote with
  | none => .UseLocal
  | some _ => .UseRemote

/-- C1 counterexample: the claim says all three built-in resolvers return
`Skip` on the (nil, nil) input, but `AlwaysUseLocalResolver.Resolve(nil, nil)`
takes the `local == nil` branch and returns `UseRemote`, and
`AlwaysUseRemoteResolver.Resolve(nil, nil)` takes the `remote == nil` branch
and returns `UseLocal`; neither is `Skip`. -/
theorem c1_null_contract_counterexample :
    alwaysUseLocalResolve none none ≠ ConflictDecision.Skip ∧
    alwaysUseRemoteResolve none none ≠ ConflictDecision.Skip := by
  decide

/-- C1 amended: the one-sided nil clauses hold for all three built-in
resolvers (local nil and remote non-nil → UseRemote; remote nil and local
non-nil → UseLocal), but the both-nil clause holds only for
`LastModifiedWinsResolver`, which returns `Skip`; `AlwaysUseLocalResolver`
returns `UseRemote` and `AlwaysUseRemoteResolver` returns `UseLocal` on the
both-nil input. -/
theorem c1_null_contract_amended :
    (∀ r : CalendarObject,
      lastModifiedWinsResolve none (some r) = .UseRemote ∧
      alwaysUseLocalResolve none (some r) = .UseRemote ∧
      alwaysUseRemoteResolve none (some r) = .UseRemote) ∧
    (∀ l : CalendarObject,
      lastModifiedWinsResolve (some l) none = .UseLocal ∧
      alwaysUseLocalResolve (some l) none = .UseLocal ∧
      alwaysUseRemoteResolve (some l) none = .UseLocal) ∧
    lastModifiedWinsResolve none none = .Skip ∧
    alwaysUseLocalResolve none none = .UseRemote ∧
    alwaysUseRemoteResolve none none = .UseLocal := by
  refine ⟨fun r => ⟨rfl, rfl, rfl⟩, fun l => ⟨rfl, rfl, rfl⟩, rfl, rfl, rfl⟩

/-- The suffix of a path after its last '/' character.  This is the direct
translation of the Go scan in `SyncDeletedItem.ExtractUID`, which walks the
string backwards to the first '/' and slices `path[lastSlash+1:]` (with
`lastSlash = -1`, i.e. the whole string, when no slash occurs): the result
is the longest slash-free suffix. -/
def afterLastSlash (path : List Char) : List Char :=
  (path.reverse.takeWhile (· != '/')).reverse

/-- Last segment of a slash-separated path, written from the claims' words
("the path's last segment" / "the trailing path segment"): recurse past any
prefix that still has a '/' ahead of the final segment. -/
def lastSegmentSpec : List Char → List Char
  | [] => []
  | c :: rest =>
    if '/' ∈ rest then lastSegmentSpec rest
    else if c = '/' then rest else c :: rest

theorem takeWhile_append_of_forall {p : Char → Bool} {xs : List Char} (ys : List Char)
    (h : ∀ x ∈ xs, p x = true) :
    (xs ++ ys).takeWhile p = xs ++ ys.takeWhile p := by
  induction xs with
  | nil => simp
  | cons a xs ih =>
    have ha : p a = true := h a (by simp)
    simp [List.takeWhile_cons, ha, ih (fun x hx => h x (by simp [hx]))]

theorem takeWhile_append_of_exists {p : Char → Bool} {xs : List Char} (ys : List Char)
    (h : ∃ x ∈ xs, p x = false) :
    (xs ++ ys).takeWhile p = xs.takeWhile p := by
  induction xs with
  | nil => obtain ⟨x, hx, _⟩ := h; simp at hx
  | cons a xs ih =>
    by_cases ha : p a = true
    · have : ∃ x ∈ xs, p x = false := by
        obtain ⟨x, hx, hpx⟩ := h
        rcases List.mem_cons.mp hx with rfl | hx'
        · exact absurd ha (by simp [hpx])
        · exact ⟨x, hx', hpx⟩
      simp [List.takeWhile_cons, ha, ih this]
    · simp [List.takeWhile_cons, Bool.eq_false_iff.mpr ha]

/-- The Go backwards scan computes exactly the last slash-separated
segment. -/
theorem afterLastSlash_eq_lastSegmentSpec : ∀ cs : List Char, afterLastSlash cs = lastSegmentSpec cs := by
  intro cs
  induction cs with
  | nil => rfl
  | cons c rest ih =>
    unfold afterLastSlash at ih ⊢
    by_cases hmem : '/' ∈ rest
    · rw [List.reverse_cons,
        takeWhile_append_of_exists [c] ⟨'/', by simpa using hmem, by decide⟩, ih]
      simp [lastSegmentSpec, hmem]
    · have hall : ∀ x ∈ rest.reverse, (x != '/') = true := by
        intro x hx
        have : x ∈ rest := by simpa using hx
        have hxne : x ≠ '/' := fun h => hmem (h ▸ this)
        simpa using hxne
      rw [List.reverse_cons, takeWhile_append_of_forall [c] hall]
      by_cases hc : c = '/'
      · subst hc
        simp [lastSegmentSpec, hmem, List.takeWhile_cons]
      · have : (c != '/') = true := by simpa using hc
        simp [lastSegmentSpec, hmem, hc, List.takeWhile_cons, this]

/-- Model of `caldav.SyncDeletedItem` (sync result entry for a deleted
event): server path and UID. -/
structure SyncDeletedItem where
  path : List Char
  uid : List Char
deriving DecidableEq, Repr

/-- The final lines of `(*SyncDeletedItem).ExtractUID`: strip a trailing
".ics" from the filename, but only under the Go guard
`len(filename) > 4 && filename[len(filename)-4:] == ".ics"`. -/
def stripIcsGuardedGo (filename : List Char) : List Char :=
  if 4 < filename.length ∧ filename.drop (filename.length - 4) = ".ics".toList then
    filename.take (filename.length - 4)
  else filename

/-- Model of `(*SyncDeletedItem).ExtractUID`: return the UID field when
non-empty; empty path yields empty string; otherwise take the substring
after the last '/' and strip a trailing ".ics" under the guarded check. -/
def syncDeletedItemExtractUID (sdi : SyncDeletedItem) : List Char :=
  if sdi.uid ≠ [] then sdi.uid
  else if sdi.path = [] then []
  else stripIcsGuardedGo (afterLastSlash sdi.path)

/-- Strip a trailing ".ics" whenever it is a suffix — formalisation of the
claim's words "the path's last segment with a trailing \".ics\" stripped",
with no further condition. -/
def stripIcsSuffixSpec (f : List Char) : List Char :=
  if ".ics".toList <:+ f then f.take (f.length - 4) else f

/-- C8 as claimed: UID field when non-empty, else the last path segment with
a trailing ".ics" stripped, else empty. -/
def extractUIDClaimedC8 (sdi : SyncDeletedItem) : List Char :=
  if sdi.uid ≠ [] then sdi.uid
  else if sdi.path = [] then []
  else stripIcsSuffixSpec (lastSegmentSpec sdi.path)

/-- Strip a trailing ".ics" only when the segment is longer than four
characters (so a segment that is exactly ".ics" is returned unchanged) —
the amended reading of C8. -/
def stripIcsSuffixGuardedSpec (f : List Char) : List Char :=
  if ".ics".toList <:+ f ∧ 4 < f.length then f.take (f.length - 4) else f

/-- C8 amended: like the claim, but the ".ics" suffix is stripped only when
the last segment is longer than four characters. -/
def extractUIDAmendedC8 (sdi : SyncDeletedItem) : List Char :=
  if sdi.uid ≠ [] then sdi.uid
  else if sdi.path = [] then []
  else stripIcsSuffixGuardedSpec (lastSegmentSpec sdi.path)

/-- C8 counterexample: on the non-empty path ".ics" (whose last segment is
exactly ".ics") the claim demands the suffix be stripped, giving "", but the
code's `len(filename) > 4` guard fails and `ExtractUID` returns ".ics"
unchanged. -/
theorem c8_extract_uid_counterexample :
    syncDeletedItemExtractUID ⟨".ics".toList, []⟩ = ".ics".toList ∧
    extractUIDClaimedC8 ⟨".ics".toList, []⟩ = [] ∧
    syncDeletedItemExtractUID ⟨".ics".toList, []⟩ ≠ extractUIDClaimedC8 ⟨".ics".toList, []⟩ := by
  refine ⟨by decide, by decide, by decide⟩

/-- C8 amended: `ExtractUID` returns the explicit UID field when non-empty;
otherwise, for a non-empty path, the path's last segment with a trailing
".ics" stripped only when that segment is longer than four characters; and
the empty string when both UID and path are empty. -/
theorem stripIcsGuardedGo_eq_spec :
    ∀ f : List Char, stripIcsGuardedGo f = stripIcsSuffixGuardedSpec f := by
  intro f
  unfold stripIcsGuardedGo stripIcsSuffixGuardedSpec
  have hlen : (".ics".toList).length = 4 := by decide
  by_cases hsuf : ".ics".toList <:+ f
  · have hdrop : f.drop (f.length - 4) = ".ics".toList := by
      have h2 := List.suffix_iff_eq_drop.mp hsuf
      rw [hlen] at h2
      exact h2.symm
    by_cases hl : 4 < f.length
    · rw [if_pos ⟨hl, hdrop⟩, if_pos ⟨hsuf, hl⟩]
    · rw [if_neg (fun h => hl h.1), if_neg (fun h => hl h.2)]
  · have hdrop : f.drop (f.length - 4) ≠ ".ics".toList := by
      intro h
      exact hsuf (by rw [List.suffix_iff_eq_drop, hlen]; exact h.symm)
    rw [if_neg (fun h => hdrop h.2), if_neg (fun h => hsuf h.1)]

theorem c8_extract_uid_amended :
    ∀ sdi : SyncDeletedItem, syncDeletedItemExtractUID sdi = extractUIDAmendedC8 sdi := by
  intro sdi
  unfold syncDeletedItemExtractUID extractUIDAmendedC8
  by_cases hu : sdi.uid ≠ []
  · simp [hu]
  · by_cases hp : sdi.path = []
    · simp [hu, hp]
    · rw [if_neg hu, if_neg hu, if_neg hp, if_neg hp,
        afterLastSlash_eq_lastSegmentSpec, stripIcsGuardedGo_eq_spec]

/-- Model of Go `strings.Split(path, "/")`: split at every '/', keeping
empty parts; the result always has one more part than there are slashes. -/
def splitSlash : List Char → List (List Char)
  | [] => [[]]
  | c :: rest =>
    match splitSlash rest with
    | [] => [[]]
    | p :: ps => if c = '/' then [] :: p :: ps else (c :: p) :: ps

/-- The trailing-".ics" strip in `(*Client).extractUIDFromPath`: the Go test
is `strings.HasSuffix(filename, ".ics")` with no length guard, i.e. exactly
the list-suffix relation. -/
def stripIcsUnguardedGo (filename : List Char) : List Char :=
  if ".ics".toList <:+ filename then filename.take (filename.length - 4) else filename

/-- Model of `(*Client).extractUIDFromPath` (client.go): split on '/', take
the last part (the Go `len(parts) == 0` branch returns ""), strip a
trailing ".ics". -/
def extractUIDFromPath (path : List Char) : List Char :=
  let parts := splitSlash path
  if parts.length = 0 then []
  else stripIcsUnguardedGo (parts.getLastD [])

theorem splitSlash_ne_nil : ∀ cs : List Char, splitSlash cs ≠ [] := by
  intro cs
  cases cs with
  | nil => simp [splitSlash]
  | cons c rest =>
    cases h : splitSlash rest with
    | nil => simp [splitSlash, h]
    | cons p ps =>
      by_cases hc : c = '/' <;> simp [splitSlash, h, hc]

theorem splitSlash_of_not_mem {cs : List Char} (h : '/' ∉ cs) : splitSlash cs = [cs] := by
  induction cs with
  | nil => rfl
  | cons c rest ih =>
    have hc : c ≠ '/' := fun hh => h (by simp [hh])
    have hr : '/' ∉ rest := fun hh => h (by simp [hh])
    simp [splitSlash, ih hr, hc]

theorem splitSlash_of_mem {cs : List Char} (h : '/' ∈ cs) :
    ∃ p ps, splitSlash cs = p :: ps ∧ ps ≠ [] := by
  induction cs with
  | nil => simp at h
  | cons c rest ih =>
    by_cases hc : c = '/'
    · cases hq : splitSlash rest with
      | nil => exact absurd hq (splitSlash_ne_nil rest)
      | cons p ps => exact ⟨[], p :: ps, by simp [splitSlash, hq, hc], by simp⟩
    · have hr : '/' ∈ rest := by
        rcases List.mem_cons.mp h with h1 | h1
        · exact absurd h1.symm hc
        · exact h1
      obtain ⟨p, ps, heq, hps⟩ := ih hr
      exact ⟨c :: p, ps, by simp [splitSlash, heq, hc], hps⟩

theorem getLastD_of_ne_nil {α : Type} : ∀ (l : List α), l ≠ [] → ∀ a b : α, l.getLastD a = l.getLastD b := by
  intro l
  cases l with
  | nil => intro h; exact absurd rfl h
  | cons c l => intro _ a b; rw [List.getLastD_cons, List.getLastD_cons]

/-- The last part of the Go split is the last slash-separated segment. -/
theorem splitSlash_getLastD : ∀ cs : List Char, (splitSlash cs).getLastD [] = lastSegmentSpec cs := by
  intro cs
  induction cs with
  | nil => rfl
  | cons c rest ih =>
    by_cases hmem : '/' ∈ rest
    · obtain ⟨p, ps, heq, hps⟩ := splitSlash_of_mem hmem
      by_cases hc : c = '/'
      · rw [show splitSlash (c :: rest) = [] :: p :: ps by simp [splitSlash, heq, hc]]
        rw [List.getLastD_cons, getLastD_of_ne_nil (p :: ps) (by simp) [] ([] : List Char)]
        rw [show ((p :: ps).getLastD [] : List Char) = (splitSlash rest).getLastD [] by rw [heq], ih]
        simp [lastSegmentSpec, hmem]
      · rw [show splitSlash (c :: rest) = (c :: p) :: ps by simp [splitSlash, heq, hc]]
        rw [List.getLastD_cons, getLastD_of_ne_nil ps hps (c :: p) p]
        rw [show (ps.getLastD p : List Char) = (p :: ps).getLastD [] by rw [List.getLastD_cons]]
        rw [show ((p :: ps).getLastD [] : List Char) = (splitSlash rest).getLastD [] by rw [heq], ih]
        simp [lastSegmentSpec, hmem]
    · by_cases hc : c = '/'
      · rw [show splitSlash (c :: rest) = [] :: [rest] by
            simp [splitSlash, splitSlash_of_not_mem hmem, hc]]
        simp [lastSegmentSpec, hmem, hc]
      · rw [show splitSlash (c :: rest) = [c :: rest] by
            simp [splitSlash, splitSlash_of_not_mem hmem, hc]]
        simp [lastSegmentSpec, hmem, hc]

/-- The client-side UID derivation equals the claims' description: the last
path segment with a trailing ".ics" stripped (here with no length guard,
unlike `SyncDeletedItem.ExtractUID`). -/
theorem extractUIDFromPath_eq_spec :
    ∀ path : List Char, extractUIDFromPath path = stripIcsSuffixSpec (lastSegmentSpec path) := by
  intro path
  unfold extractUIDFromPath
  have hne := splitSlash_ne_nil path
  rw [if_neg (by simpa using List.length_eq_zero.not.mpr hne), splitSlash_getLastD]
  rfl

/-- Model of Go `strings.Contains(s, sub)`: sub occurs as a contiguous
substring of s (an empty sub always matches). -/
def strContains (s sub : List Char) : Bool :=
  match s with
  | [] => sub.isEmpty
  | c :: rest => sub.isPrefixOf (c :: rest) || strContains rest sub

/-- A decoder for the external iCalendar codec: bytes in, document or
error out (the model of `ical.NewDecoder(r).Decode()`). -/
abbrev ICalDecoder := List Char → Except (List Char) ICalendar

/-- One multistatus response entry of a sync-collection exchange, after
property extraction: `path` is the `resp.Path()` result (`none` = path
extraction error, which the sync loop skips with `continue`), `status` the
reported status text, `etag` the decoded getetag ("" when absent), and
`calData` the calendar-data bytes ([] when absent). -/
structure SyncEntry where
  path : Option (List Char)
  status : List Char
  etag : List Char
  calData : List Char
deriving DecidableEq, Repr

/-- A single classified change of the sync loop. -/
inductive SyncChange where
  | created (obj : CalendarObject)
  | updated (obj : CalendarObject)
  | deleted (path uid : List Char)
deriving DecidableEq, Repr

/-- The per-entry classification of `(*Client).SyncCalendar` (client.go):
skip on path error and on the collection root; status containing "404" →
deleted with the path-derived UID; status containing "200" with a non-empty
payload → decode it (a decode error skips the entry with `continue`), then
created when the status also contains "201", else updated, with
`ModTime: time.Now()`; status containing "200" without payload → updated
with ETag only; anything else → no entry. -/
def classifyEntry (dec : ICalDecoder) (calendar : List Char) (now : Int) (e : SyncEntry) : Option SyncChange :=
  match e.path with
  | none => none
  | some path =>
    if path = calendar then none
    else if strContains e.status "404".toList then
      some (.deleted path (extractUIDFromPath path))
    else if strContains e.status "200".toList ∧ e.calData ≠ [] then
      match dec e.calData with
      | .error _ => none
      | .ok cal =>
        if strContains e.status "201".toList then
          some (.created { path := path, modTime := now, contentLength := 0, etag := e.etag, data := some cal })
        else
          some (.updated { path := path, modTime := now, contentLength := 0, etag := e.etag, data := some cal })
    else if strContains e.status "200".toList then
      some (.updated { path := path, modTime := 0, contentLength := 0, etag := e.etag, data := none })
    else none

/-- Model of `caldav.SyncResult`. -/
structure SyncResultM where
  created : List CalendarObject
  updated : List CalendarObject
  deleted : List SyncDeletedItem
  syncToken : List Char
deriving DecidableEq, Repr

/-- Model of `NewSyncResult`. -/
def newSyncResult (tok : List Char) : SyncResultM := ⟨[], [], [], tok⟩

/-- Model of `AddCreated` / `AddUpdated` / `AddDeleted`. -/
def addChange (r : SyncResultM) : SyncChange → SyncResultM
  | .created o => { r with created := r.created ++ [o] }
  | .updated o => { r with updated := r.updated ++ [o] }
  | .deleted p u => { r with deleted := r.deleted ++ [⟨p, u⟩] }

/-- The accumulation loop of `SyncCalendar` over the response entries. -/
def processEntries (dec : ICalDecoder) (calendar : List Char) (now : Int) : SyncResultM → List SyncEntry → SyncResultM
  | r, [] => r
  | r, e :: rest =>
    match classifyEntry dec calendar now e with
    | none => processEntries dec calendar now r rest
    | some ch => processEntries dec calendar now (addChange r ch) rest

/-- The sentinel errors of errors.go plus the generic `internal.HTTPError`
and opaque transport failures. -/
inductive CaldavError where
  | preconditionFailed
  | syncTokenExpired
  | mergeNotSupported
  | getRemoteFailed (msg : List Char)
  | httpStatus (code : Nat)
  | transport (msg : List Char)
deriving DecidableEq, Repr

/-- Outcome of the underlying sync-collection exchange
(`c.ic.SyncCollection`): either an HTTP error or a new token plus the
response entries. -/
inductive SyncExchange where
  | fail (code : Nat)
  | ok (newToken : List Char) (entries : List SyncEntry)
deriving DecidableEq, Repr

/-- Model of `(*Client).SyncCalendar` after the exchange: HTTP 410 maps to
the distinct `ErrSyncTokenExpired` sentinel, any other HTTP error
propagates, and a successful exchange folds the entries into a fresh
`SyncResult` that carries the returned sync token. -/
def syncCalendarM (dec : ICalDecoder) (calendar : List Char) (now : Int) : SyncExchange → Except CaldavError SyncResultM
  | .fail code => if code = 410 then .error .syncTokenExpired else .error (.httpStatus code)
  | .ok tok entries => .ok (processEntries dec calendar now (newSyncResult tok) entries)

theorem addChange_syncToken : ∀ (r : SyncResultM) (ch : SyncChange), (addChange r ch).syncToken = r.syncToken := by
  intro r ch
  cases ch <;> rfl

theorem processEntries_syncToken (dec : ICalDecoder) (cal : List Char) (now : Int) :
    ∀ (es : List SyncEntry) (r : SyncResultM), (processEntries dec cal now r es).syncToken = r.syncToken := by
  intro es
  induction es with
  | nil => intro r; rfl
  | cons e rest ih =>
    intro r
    unfold processEntries
    cases classifyEntry dec cal now e with
    | none => exact ih r
    | some ch => rw [ih (addChange r ch), addChange_syncToken]

/-- C7: a sync exchange the server rejects with HTTP 410 returns the
distinct `ErrSyncTokenExpired` sentinel and no result; any other HTTP error
propagates as-is (no fallback exchange is attempted — the model consumes a
single exchange by construction); a successful exchange yields a populated
`SyncResult` carrying the new sync token. -/
theorem c7_sync_token_expiry :
    ∀ (dec : ICalDecoder) (cal : List Char) (now : Int) (code : Nat) (tok : List Char) (entries : List SyncEntry),
      (syncCalendarM dec cal now (.fail 410) = .error .syncTokenExpired) ∧
      (code ≠ 410 → syncCalendarM dec cal now (.fail code) = .error (.httpStatus code)) ∧
      (∃ r, syncCalendarM dec cal now (.ok tok entries) = .ok r ∧ r.syncToken = tok) := by
  intro dec cal now code tok entries
  refine ⟨rfl, fun h => by simp [syncCalendarM, h], ⟨_, rfl, ?_⟩⟩
  rw [processEntries_syncToken]
  rfl

/-- A codec instance that rejects every payload, standing in for
`ical.NewDecoder(r).Decode()` on bytes that are not an iCalendar stream. -/
def rejectAllDecoder : ICalDecoder := fun bs => .error bs

/-- C7 witness: a concrete non-410 failure propagates as an HTTP error. -/
theorem c7_sync_token_expiry_witness :
    syncCalendarM rejectAllDecoder [] 0 (.fail 404) = .error (.httpStatus 404) :=
  (c7_sync_token_expiry rejectAllDecoder [] 0 404 [] []).2.1 (by decide)

/-- C3 amended: for a non-root entry with an extracted path, classification
follows the status text as claimed — "404" → Deleted with the last path
segment, ".ics"-stripped, as identifier; "200" with payload → Created when
"201" also occurs, else Updated, provided the payload decodes successfully
(an entry whose payload fails to decode yields no entry at all); "200"
without payload → Updated with ETag set and Data unset. -/
theorem c3_sync_classification_amended :
    ∀ (dec : ICalDecoder) (cal : List Char) (now : Int) (e : SyncEntry) (p : List Char),
      e.path = some p → p ≠ cal →
      ((strContains e.status "404".toList = true →
          classifyEntry dec cal now e =
            some (.deleted p (stripIcsSuffixSpec (lastSegmentSpec p)))) ∧
       (strContains e.status "404".toList = false →
        strContains e.status "200".toList = true → e.calData ≠ [] →
        ∀ c, dec e.calData = .ok c →
          classifyEntry dec cal now e =
            some (if strContains e.status "201".toList then
                    .created { path := p, modTime := now, contentLength := 0, etag := e.etag, data := some c }
                  else
                    .updated { path := p, modTime := now, contentLength := 0, etag := e.etag, data := some c })) ∧
       (strContains e.status "404".toList = false →
        strContains e.status "200".toList = true → e.calData = [] →
          classifyEntry dec cal now e =
            some (.updated { path := p, modTime := 0, contentLength := 0, etag := e.etag, data := none }))) := by
  intro dec cal now e p hp hne
  refine ⟨fun h404 => ?_, fun h404 h200 hdata c hc => ?_, fun h404 h200 hdata => ?_⟩
  · unfold classifyEntry
    rw [hp]
    dsimp only
    rw [if_neg hne, if_pos h404, extractUIDFromPath_eq_spec]
  · unfold classifyEntry
    rw [hp]
    dsimp only
    rw [if_neg hne, if_neg (by rw [h404]; exact Bool.false_ne_true),
      if_pos ⟨h200, hdata⟩, hc]
    dsimp only
    by_cases h201 : strContains e.status "201".toList = true
    · rw [if_pos h201, if_pos h201]
    · rw [if_neg h201, if_neg h201]
  · unfold classifyEntry
    rw [hp]
    dsimp only
    rw [if_neg hne, if_neg (by rw [h404]; exact Bool.false_ne_true),
      if_neg (fun h => h.2 hdata), if_pos h200]

/-- The concrete 200-with-payload entry used to refute C3 as stated: the
payload "x" is not an iCalendar stream, so the codec rejects it. -/
def c3Entry : SyncEntry :=
  { path := some "/cal/u/e1.ics".toList
    status := "HTTP/1.1 200 OK".toList
    etag := "W1".toList
    calData := "x".toList }

/-- C3 counterexample: this entry satisfies the claim's conditions for an
Updated entry (status contains "200" and not "201", payload present, path
extracted and distinct from the collection root), yet the sync loop
produces no entry at all, because `ical.NewDecoder(...).Decode()` fails on
the payload and the code skips the entry with `continue`. -/
theorem c3_sync_classification_counterexample :
    strContains c3Entry.status "200".toList = true ∧
    strContains c3Entry.status "201".toList = false ∧
    strContains c3Entry.status "404".toList = false ∧
    c3Entry.calData ≠ [] ∧
    c3Entry.path = some "/cal/u/e1.ics".toList ∧
    "/cal/u/e1.ics".toList ≠ "/cal/u".toList ∧
    classifyEntry rejectAllDecoder "/cal/u".toList 0 c3Entry = none := by
  decide

/-- The concrete deleted entry used as the C3 witness. -/
def c3DelEntry : SyncEntry :=
  { path := some "/cal/u/e2.ics".toList
    status := "HTTP/1.1 404 Not Found".toList
    etag := []
    calData := [] }

/-- C3 witness: a concrete 404 entry classifies as Deleted with the
".ics"-stripped trailing segment as identifier. -/
theorem c3_sync_classification_amended_witness :
    classifyEntry rejectAllDecoder "/cal/u".toList 0 c3DelEntry =
      some (.deleted "/cal/u/e2.ics".toList
        (stripIcsSuffixSpec (lastSegmentSpec "/cal/u/e2.ics".toList))) :=
  (c3_sync_classification_amended rejectAllDecoder "/cal/u".toList 0 c3DelEntry
    "/cal/u/e2.ics".toList rfl (by decide)).1 (by decide)

/-- One multistatus response entry as seen by `decodeCalendarObjectList`
(client.go): `path` is the `resp.Path()` outcome (`.error msg` = extraction
failure, recorded and skipped), `calData` the calendar-data bytes ([] when
the property is absent or empty — the Go skip is `len(calData.Data) == 0`),
and the remaining metadata properties carry their decoded values, with the
Go zero value when the property is absent (the `IsNotFound`-tolerated
decodes). -/
structure MSResponse where
  path : Except (List Char) (List Char)
  calData : List Char
  lastMod : Int
  etag : List Char
  contentLength : Int
deriving Repr

/-- Result of the multistatus decode: `fatal` models the early
`return nil, err` on a calendar-document decode failure; `ok` carries the
built objects together with the joined non-fatal path errors. -/
inductive DecodeListOutcome where
  | fatal (err : List Char)
  | ok (objs : List CalendarObject) (pathErrs : List (List Char))
deriving DecidableEq, Repr

/-- Model of `decodeCalendarObjectList` (client.go): per entry — record a
path error and continue; skip entries without calendar-data; a
calendar-document decode failure returns immediately with that error,
discarding everything built so far; otherwise append the CalendarObject
built from path and metadata. -/
def decodeCalendarObjectListM (dec : ICalDecoder) : List MSResponse → DecodeListOutcome
  | [] => .ok [] []
  | r :: rest =>
    match r.path with
    | .error e =>
      match decodeCalendarObjectListM dec rest with
      | .fatal f => .fatal f
      | .ok objs errs => .ok objs (e :: errs)
    | .ok path =>
      if r.calData = [] then decodeCalendarObjectListM dec rest
      else
        match dec r.calData with
        | .error m => .fatal m
        | .ok c =>
          match decodeCalendarObjectListM dec rest with
          | .fatal f => .fatal f
          | .ok objs errs =>
            .ok ({ path := path, modTime := r.lastMod, contentLength := r.contentLength,
                   etag := r.etag, data := some c } :: objs) errs

/-- Spec-side view: the error of the first entry whose calendar document
fails to decode ("a decode failure here is fatal for the whole call"), if
any. -/
def firstFatal (dec : ICalDecoder) : List MSResponse → Option (List Char)
  | [] => none
  | r :: rest =>
    match r.path with
    | .error _ => firstFatal dec rest
    | .ok _ =>
      if r.calData = [] then firstFatal dec rest
      else
        match dec r.calData with
        | .error m => some m
        | .ok _ => firstFatal dec rest

/-- Spec-side view: "the sequence of successfully built CalendarObject
records" — one per entry with an extracted path, a present calendar-data
payload and a successful document decode. -/
def goodObjs (dec : ICalDecoder) : List MSResponse → List CalendarObject
  | [] => []
  | r :: rest =>
    match r.path with
    | .error _ => goodObjs dec rest
    | .ok path =>
      if r.calData = [] then goodObjs dec rest
      else
        match dec r.calData with
        | .error _ => goodObjs dec rest
        | .ok c =>
          { path := path, modTime := r.lastMod, contentLength := r.contentLength,
            etag := r.etag, data := some c } :: goodObjs dec rest

/-- Spec-side view: "the joined set of non-fatal path errors" — the path
extraction errors of all entries, in order. -/
def pathErrs : List MSResponse → List (List Char)
  | [] => []
  | r :: rest =>
    match r.path with
    | .error e => e :: pathErrs rest
    | .ok _ => pathErrs rest

/-- C6: the multistatus decoder treats failures asymmetrically — if some
entry's calendar document fails to decode, the whole call returns that
first fatal error and no objects (all previously decoded entries are
discarded); otherwise it returns every successfully built CalendarObject
together with all accumulated non-fatal path-extraction errors, entries
without calendar-data having been skipped entirely. -/
theorem c6_decode_asymmetry :
    ∀ (dec : ICalDecoder) (resps : List MSResponse),
      decodeCalendarObjectListM dec resps =
        match firstFatal dec resps with
        | some m => .fatal m
        | none => .ok (goodObjs dec resps) (pathErrs resps) := by
  intro dec resps
  induction resps with
  | nil => rfl
  | cons r rest ih =>
    unfold decodeCalendarObjectListM firstFatal goodObjs pathErrs
    cases hpath : r.path with
    | error e =>
      dsimp only
      rw [ih]
      cases firstFatal dec rest <;> rfl
    | ok p =>
      dsimp only
      by_cases hcd : r.calData = []
      · simp only [if_pos hcd, ih]
      · simp only [if_neg hcd]
        cases hdec : dec r.calData with
        | error m => rfl
        | ok c =>
          dsimp only
          rw [ih]
          cases firstFatal dec rest <;> rfl

/-- Model of Go `strconv.Unquote` restricted to double-quoted strings with
no escape sequences: it succeeds exactly on `"` + interior + `"` where the
interior contains no quote, backslash or newline, returning the interior.
This restriction is faithful on every input free of backslashes,
backquotes and single-quote character literals — in particular on all
realistic ETag header values (quoted or unquoted opaque tags). -/
def goUnquote (s : List Char) : Option (List Char) :=
  match s with
  | '"' :: rest =>
    if rest ≠ [] ∧ rest.getLast? = some '"' then
      if rest.dropLast.all (fun c => (c != '"') && (c != '\\') && (c != '\n')) then
        some rest.dropLast
      else none
    else none
  | _ => none

/-- The write/get response headers consumed by `populateCalendarObject`:
`etag` is the raw ETag header value ([] when absent); `location` is the
path of the parsed Location header when present; Content-Length and
Last-Modified carry their parsed values (their parse failures, which Go
surfaces as errors, are outside the claims' scope). -/
structure RespHeaders where
  location : Option (List Char)
  etag : List Char
  contentLength : Option Int
  lastModified : Option Int
deriving DecidableEq, Repr

/-- Model of `populateCalendarObject` (client.go): overwrite the path from
a Location header when present; for a non-empty ETag header run
`strconv.Unquote` and store the unquoted form on success, falling back to
the verbatim header value on failure (some providers return unquoted
ETags); then fill Content-Length and Last-Modified when present. -/
def populateCalendarObject (co : CalendarObject) (hd : RespHeaders) : CalendarObject :=
  let co1 := match hd.location with
    | some p => { co with path := p }
    | none => co
  let co2 :=
    if hd.etag ≠ [] then
      match goUnquote hd.etag with
      | some unq => { co1 with etag := unq }
      | none => { co1 with etag := hd.etag }
    else co1
  let co3 := match hd.contentLength with
    | some n => { co2 with contentLength := n }
    | none => co2
  match hd.lastModified with
  | some t => { co3 with modTime := t }
  | none => co3

theorem populate_etag_eq (co : CalendarObject) (hd : RespHeaders) :
    (populateCalendarObject co hd).etag =
      if hd.etag ≠ [] then
        match goUnquote hd.etag with
        | some u => u
        | none => hd.etag
      else co.etag := by
  rcases hd with ⟨loc, etag, cl, lm⟩
  cases hgq : goUnquote etag with
  | none =>
    cases loc <;> cases cl <;> cases lm <;> by_cases he : etag = [] <;>
      simp [populateCalendarObject, he, hgq]
  | some u =>
    cases loc <;> cases cl <;> cases lm <;> by_cases he : etag = [] <;>
      simp [populateCalendarObject, he, hgq]

/-- In the multistatus decode path, every returned object's ETag is the
response entry's property value verbatim. -/
theorem decodeList_etag_verbatim :
    ∀ (dec : ICalDecoder) (resps : List MSResponse) (objs : List CalendarObject) (errs : List (List Char)),
      decodeCalendarObjectListM dec resps = .ok objs errs →
      ∀ o ∈ objs, ∃ r ∈ resps, r.path = Except.ok o.path ∧ o.etag = r.etag := by
  intro dec resps
  induction resps with
  | nil =>
    intro objs errs h o ho
    unfold decodeCalendarObjectListM at h
    injection h with h1 h2
    subst h1
    simp at ho
  | cons r rest ih =>
    intro objs errs h o ho
    unfold decodeCalendarObjectListM at h
    rcases hpe : r.path with e | p
    · rw [hpe] at h
      dsimp only at h
      cases hrec : decodeCalendarObjectListM dec rest with
      | fatal f => rw [hrec] at h; simp at h
      | ok objs' errs' =>
        rw [hrec] at h
        dsimp only at h
        injection h with h1 h2
        subst h1
        obtain ⟨r', hr', hpp, hee⟩ := ih objs' errs' hrec o ho
        exact ⟨r', by simp [hr'], hpp, hee⟩
    · rw [hpe] at h
      dsimp only at h
      by_cases hcd : r.calData = []
      · rw [if_pos hcd] at h
        obtain ⟨r', hr', hpp, hee⟩ := ih objs errs h o ho
        exact ⟨r', by simp [hr'], hpp, hee⟩
      · rw [if_neg hcd] at h
        cases hdec : dec r.calData with
        | error m => rw [hdec] at h; simp at h
        | ok c =>
          rw [hdec] at h
          dsimp only at h
          cases hrec : decodeCalendarObjectListM dec rest with
          | fatal f => rw [hrec] at h; simp at h
          | ok objs' errs' =>
            rw [hrec] at h
            dsimp only at h
            injection h with h1 h2
            subst h1
            rcases List.mem_cons.mp ho with rfl | ho'
            · exact ⟨r, by simp, by rw [hpe], rfl⟩
            · obtain ⟨r', hr', hpp, hee⟩ := ih objs' errs' hrec o ho'
              exact ⟨r', by simp [hr'], hpp, hee⟩

/-- The concrete quoted ETag header used to refute C5 as stated. -/
def c5Headers : RespHeaders :=
  { location := none, etag := "\"abc\"".toList, contentLength := none, lastModified := none }

/-- C5 counterexample: a response whose ETag header is the well-formed
quoted tag `"abc"` is stored as `abc` — `populateCalendarObject` runs the
header through `strconv.Unquote`, so the stored value is not the header
value verbatim. -/
theorem c5_etag_counterexample :
    (populateCalendarObject ⟨[], 0, 0, [], none⟩ c5Headers).etag = "abc".toList ∧
    (populateCalendarObject ⟨[], 0, 0, [], none⟩ c5Headers).etag ≠ c5Headers.etag := by
  refine ⟨by decide, by decide⟩

/-- C5 amended: ETags taken from multistatus property values are stored
verbatim, but an ETag response header is first passed through
`strconv.Unquote`: when it parses as a quoted string the unquoted form is
stored, otherwise the header value is stored verbatim (the fallback for
providers that return unquoted tags); no other transformation is applied. -/
theorem c5_etag_amended :
    ∀ (co : CalendarObject) (hd : RespHeaders),
      (hd.etag ≠ [] → goUnquote hd.etag = none → (populateCalendarObject co hd).etag = hd.etag) ∧
      (hd.etag ≠ [] → ∀ u, goUnquote hd.etag = some u → (populateCalendarObject co hd).etag = u) ∧
      (hd.etag = [] → (populateCalendarObject co hd).etag = co.etag) ∧
      (∀ (dec : ICalDecoder) (resps : List MSResponse) (objs : List CalendarObject) (errs : List (List Char)),
        decodeCalendarObjectListM dec resps = .ok objs errs →
        ∀ o ∈ objs, ∃ r ∈ resps, r.path = Except.ok o.path ∧ o.etag = r.etag) := by
  intro co hd
  refine ⟨fun hne hgq => ?_, fun hne u hgq => ?_, fun he => ?_, decodeList_etag_verbatim⟩
  · rw [populate_etag_eq, if_pos hne, hgq]
  · rw [populate_etag_eq, if_pos hne, hgq]
  · rw [populate_etag_eq, if_neg (by simp [he])]

/-- C5 witness: a concrete unquoted ETag header (`abc`) fails
`strconv.Unquote` and is stored verbatim. -/
theorem c5_etag_amended_witness :
    (populateCalendarObject ⟨[], 0, 0, [], none⟩ ⟨none, "abc".toList, none, none⟩).etag = "abc".toList :=
  (c5_etag_amended ⟨[], 0, 0, [], none⟩ ⟨none, "abc".toList, none, none⟩).1 (by decide) (by decide)

/-- Model of `caldav.TextMatch`. -/
structure TextMatchM where
  text : List Char
  negateCondition : Bool
deriving DecidableEq, Repr

/-- Model of `caldav.ParamFilter`. -/
structure ParamFilterM where
  name : List Char
  textMatch : Option TextMatchM
deriving DecidableEq, Repr

/-- Model of `caldav.PropFilter` (the fields read by the encoder: Name,
Start, End, TextMatch, ParamFilter). -/
structure PropFilterM where
  name : List Char
  start : Int
  stop : Int
  textMatch : Option TextMatchM
  paramFilter : List ParamFilterM
deriving DecidableEq, Repr

/-- Model of `caldav.CompFilter`: Name, Start, End (`stop` here), nested
property filters and nested component filters. -/
inductive CompFilterM where
  | mk (name : List Char) (start stop : Int) (props : List PropFilterM) (comps : List CompFilterM)

def CompFilterM.name : CompFilterM → List Char
  | .mk n _ _ _ _ => n

def CompFilterM.start : CompFilterM → Int
  | .mk _ s _ _ _ => s

def CompFilterM.stop : CompFilterM → Int
  | .mk _ _ e _ _ => e

def CompFilterM.props : CompFilterM → List PropFilterM
  | .mk _ _ _ ps _ => ps

def CompFilterM.comps : CompFilterM → List CompFilterM
  | .mk _ _ _ _ cs => cs

/-- Overwrite a node's Start and End, as the Go loop body
`Comps[i].Start = ...; Comps[i].End = ...` does. -/
def CompFilterM.withRange : CompFilterM → Int → Int → CompFilterM
  | .mk n _ _ ps cs, s, e => .mk n s e ps cs

/-- Replace a node's children list. -/
def CompFilterM.withComps : CompFilterM → List CompFilterM → CompFilterM
  | .mk n s e ps _, cs => .mk n s e ps cs

/-- Model of `caldav.CalendarCompRequest` (Name, AllProps, Props, AllComps,
Comps, Expand); the time-range step never reads or writes it. -/
inductive CalendarCompRequestM where
  | mk (name : List Char) (allProps : Bool) (props : List (List Char))
       (allComps : Bool) (comps : List CalendarCompRequestM) (expand : Option (Int × Int))

/-- Model of `caldav.CalendarQuery`: the component selection request and
the filter tree. -/
structure CalendarQueryM where
  compRequest : CalendarCompRequestM
  compFilter : CompFilterM

/-- Model of `caldav.QueryOptions` (part_001): optional time-range pointers
and the reserved sync token. -/
structure QueryOptionsM where
  timeRangeStart : Option Int
  timeRangeEnd : Option Int
  syncToken : List Char
deriving DecidableEq, Repr

/-- The loop of `QueryCalendar`'s time-range block over the children slice:
find the first child named "VEVENT" and overwrite its Start/End with
`*opts.TimeRangeStart` / `*opts.TimeRangeEnd`, then break.  The body
dereferences both pointers unconditionally, so reaching a VEVENT child
while either pointer is nil is a nil-pointer dereference — a Go runtime
panic, modelled as `none`. -/
def applyTimeRangeToComps (s e : Option Int) : List CompFilterM → Option (List CompFilterM)
  | [] => some []
  | c :: rest =>
    if c.name = "VEVENT".toList then
      match s with
      | none => none
      | some sv =>
        match e with
        | none => none
        | some ev => some (c.withRange sv ev :: rest)
    else
      match applyTimeRangeToComps s e rest with
      | none => none
      | some rest' => some (c :: rest')

/-- The value of the CALLER's original query after `QueryCalendar`'s
time-range block (client.go lines 303–318), `none` modelling a panic.
`modifiedQuery := *query` copies the struct shallowly, so
`modifiedQuery.CompFilter.Comps` is the same slice backing array as the
caller's `query.CompFilter.Comps`; the loop's element writes therefore
reach the caller's original children, while the original's root CompFilter
fields and CompRequest are never written.  A nil `opts` is replaced by the
empty options, and the block runs only when at least one of the two range
pointers is non-nil (the Go guard is `TimeRangeStart != nil ||
TimeRangeEnd != nil`). -/
def queryTimeRangeStep (q : CalendarQueryM) (opts : Option QueryOptionsM) : Option CalendarQueryM :=
  let o := opts.getD ⟨none, none, []⟩
  if o.timeRangeStart.isSome || o.timeRangeEnd.isSome then
    match applyTimeRangeToComps o.timeRangeStart o.timeRangeEnd q.compFilter.comps with
    | none => none
    | some comps' => some { q with compFilter := q.compFilter.withComps comps' }
  else some q

/-- Spec-side relation (from the amended claim's words): the output list is
the input list with the first child named "VEVENT" given Start/End `s`/`e`,
every other node unchanged. -/
inductive FirstVeventUpdated (s e : Int) : List CompFilterM → List CompFilterM → Prop where
  | head (c : CompFilterM) (rest : List CompFilterM) (h : c.name = "VEVENT".toList) :
      FirstVeventUpdated s e (c :: rest) (c.withRange s e :: rest)
  | tail (c : CompFilterM) (rest rest' : List CompFilterM) (hn : c.name ≠ "VEVENT".toList)
      (ht : FirstVeventUpdated s e rest rest') :
      FirstVeventUpdated s e (c :: rest) (c :: rest')

theorem applyTimeRange_characterize :
    ∀ (s e : Int) (comps comps' : List CompFilterM),
      applyTimeRangeToComps (some s) (some e) comps = some comps' →
      ((∀ c ∈ comps, c.name ≠ "VEVENT".toList) ∧ comps' = comps) ∨
        FirstVeventUpdated s e comps comps' := by
  intro s e comps
  induction comps with
  | nil =>
    intro comps' h
    injection h with h1
    exact Or.inl ⟨by simp, h1.symm⟩
  | cons c rest ih =>
    intro comps' h
    unfold applyTimeRangeToComps at h
    by_cases hn : c.name = "VEVENT".toList
    · rw [if_pos hn] at h
      dsimp only at h
      injection h with h1
      exact Or.inr (h1 ▸ FirstVeventUpdated.head c rest hn)
    · rw [if_neg hn] at h
      cases hrec : applyTimeRangeToComps (some s) (some e) rest with
      | none => rw [hrec] at h; simp at h
      | some rest' =>
        rw [hrec] at h
        dsimp only at h
        injection h with h1
        rcases ih rest' hrec with ⟨hall, rfl⟩ | hupd
        · exact Or.inl ⟨by
            intro d hd
            rcases List.mem_cons.mp hd with rfl | hd'
            · exact hn
            · exact hall d hd', h1.symm⟩
        · exact Or.inr (h1 ▸ FirstVeventUpdated.tail c rest rest' hn hupd)

/-- C4 amended: when a time range is applied (both pointers set) and the
step completes, the caller's original query keeps its CompRequest and its
root filter's Name/Start/End/Props unchanged, but its children list — the
slice shared with the "shallow copy" — either is entirely unchanged (when
no direct child is named "VEVENT") or has the first child named "VEVENT"
with Start and End overwritten by the supplied range, all other nodes
unchanged. -/
theorem c4_query_aliasing_amended :
    ∀ (q : CalendarQueryM) (opts : QueryOptionsM) (s e : Int) (q' : CalendarQueryM),
      opts.timeRangeStart = some s → opts.timeRangeEnd = some e →
      queryTimeRangeStep q (some opts) = some q' →
      q'.compRequest = q.compRequest ∧
      q'.compFilter.name = q.compFilter.name ∧
      q'.compFilter.start = q.compFilter.start ∧
      q'.compFilter.stop = q.compFilter.stop ∧
      q'.compFilter.props = q.compFilter.props ∧
      (((∀ c ∈ q.compFilter.comps, c.name ≠ "VEVENT".toList) ∧
          q'.compFilter.comps = q.compFilter.comps) ∨
        FirstVeventUpdated s e q.compFilter.comps q'.compFilter.comps) := by
  intro q opts s e q' hs he h
  rcases opts with ⟨ts, te, tok⟩
  dsimp only at hs he
  subst hs
  subst he
  unfold queryTimeRangeStep at h
  rw [Option.getD_some] at h
  dsimp only [Option.isSome, Bool.or] at h
  rw [if_pos rfl] at h
  cases happ : applyTimeRangeToComps (some s) (some e) q.compFilter.comps with
  | none => rw [happ] at h; simp at h
  | some comps' =>
    rw [happ] at h
    dsimp only at h
    injection h with h1
    subst h1
    rcases q with ⟨req, cf⟩
    rcases cf with ⟨n, st, en, ps, cs⟩
    refine ⟨rfl, rfl, rfl, rfl, rfl, ?_⟩
    exact applyTimeRange_characterize s e cs comps' happ

/-- The component selection request shared by the concrete queries below. -/
def reqVCal : CalendarCompRequestM := .mk "VCALENDAR".toList false [] false [] none

/-- A concrete query whose root filter has a single child named "VEVENT"
with zero Start/End. -/
def qVeventChild : CalendarQueryM :=
  { compRequest := reqVCal
    compFilter := .mk "VCALENDAR".toList 0 0 [] [.mk "VEVENT".toList 0 0 [] []] }

/-- The value of the caller's original query after applying the range
(5, 9) to `qVeventChild`: the VEVENT child's Start/End are overwritten. -/
def qVeventChildAfter : CalendarQueryM :=
  { compRequest := reqVCal
    compFilter := .mk "VCALENDAR".toList 0 0 [] [.mk "VEVENT".toList 5 9 [] []] }

/-- C4 counterexample: applying the time range (5, 9) through the options
leaves the caller's original query CHANGED — the shared children slice now
carries the VEVENT child with Start 5 and End 9, not the original zero
values — so the claim that the original query, including every nested
node's Start and End, is unchanged fails on this input. -/
theorem c4_query_aliasing_counterexample :
    queryTimeRangeStep qVeventChild (some ⟨some 5, some 9, []⟩) = some qVeventChildAfter ∧
    queryTimeRangeStep qVeventChild (some ⟨some 5, some 9, []⟩) ≠ some qVeventChild := by
  constructor
  · rfl
  · intro h
    rw [show queryTimeRangeStep qVeventChild (some ⟨some 5, some 9, []⟩) = some qVeventChildAfter
        from rfl] at h
    injection h with h2
    simp [qVeventChildAfter, qVeventChild, reqVCal] at h2

/-- C4 witness: the amended theorem applied to the concrete query. -/
theorem c4_query_aliasing_amended_witness :
    qVeventChildAfter.compRequest = qVeventChild.compRequest ∧
    qVeventChildAfter.compFilter.name = qVeventChild.compFilter.name ∧
    qVeventChildAfter.compFilter.start = qVeventChild.compFilter.start ∧
    qVeventChildAfter.compFilter.stop = qVeventChild.compFilter.stop ∧
    qVeventChildAfter.compFilter.props = qVeventChild.compFilter.props ∧
    (((∀ c ∈ qVeventChild.compFilter.comps, c.name ≠ "VEVENT".toList) ∧
        qVeventChildAfter.compFilter.comps = qVeventChild.compFilter.comps) ∨
      FirstVeventUpdated 5 9 qVeventChild.compFilter.comps qVeventChildAfter.compFilter.comps) :=
  c4_query_aliasing_amended qVeventChild ⟨some 5, some 9, []⟩ 5 9 qVeventChildAfter rfl rfl rfl

/-- C9: with a query whose filter root has a direct child named "VEVENT"
and options carrying `TimeRangeStart` but a nil `TimeRangeEnd`, the guard
`TimeRangeStart != nil || TimeRangeEnd != nil` admits the block and the
body dereferences the nil `TimeRangeEnd` pointer — a runtime panic,
modelled here as the step evaluating to `none`. -/
theorem c9_nil_time_pointer_panic :
    queryTimeRangeStep qVeventChild (some ⟨some 5, none, []⟩) = none := rfl

/-- Model of `caldav.PutOptions` (part_001): the two conditional-match
tokens, each a string whose `IsSet` test is non-emptiness. -/
structure PutOptionsM where
  ifMatch : List Char
  ifNoneMatch : List Char
deriving DecidableEq, Repr

/-- Model of `webdav.ConditionalMatch.IsSet`: the token is set when
non-empty. -/
def condIsSet (c : List Char) : Bool := !c.isEmpty

/-- The conditional PUT request as built by `PutCalendarObject`: the
`If-Match` / `If-None-Match` headers are set exactly when the corresponding
option token `IsSet`. -/
structure PutReq where
  ifMatch : Option (List Char)
  ifNoneMatch : Option (List Char)
  body : List Char
deriving DecidableEq, Repr

/-- Request construction of `PutCalendarObject`: a nil `opts` is replaced
by the empty options, and each header is added only when its token is
set. -/
def mkPutReq (opts : Option PutOptionsM) (body : List Char) : PutReq :=
  let o := opts.getD ⟨[], []⟩
  { ifMatch := if condIsSet o.ifMatch then some o.ifMatch else none
    ifNoneMatch := if condIsSet o.ifNoneMatch then some o.ifNoneMatch else none
    body := body }

/-- A PUT response: HTTP status and headers. -/
structure PutResp where
  status : Nat
  headers : RespHeaders
deriving DecidableEq, Repr

/-- Outcome of the `GetCalendarObject` re-fetch inside `handleConflict`. -/
inductive GetOutcome where
  | err (msg : List Char)
  | ok (obj : CalendarObject)
deriving DecidableEq, Repr

/-- A conflict resolver is the Go `ConflictResolver` interface: a function
from the (possibly nil) local and remote objects to a decision. -/
abbrev ResolverM := Option CalendarObject → Option CalendarObject → ConflictDecision

/-- The external iCalendar encoder (`ical.NewEncoder(&buf).Encode(cal)`):
document in, bytes or error out. -/
abbrev ICalEncoder := ICalendar → Except (List Char) (List Char)

/-- The local CalendarObject that `handleConflict` builds for the resolver:
`&CalendarObject{Path: path, Data: local, ModTime: time.Now()}` — ETag and
ContentLength are left zero-valued, and ModTime is the wall-clock time at
resolution, not anything carried in the submitted document. -/
def conflictLocalObj (path : List Char) (now : Int) (cal : ICalendar) : CalendarObject :=
  { path := path, modTime := now, contentLength := 0, etag := [], data := some cal }

/-- Result of one PUT attempt: either a final outcome, or "retry" — the
UseLocal decision, which re-issues the write. -/
inductive PutAttemptResult where
  | retry
  | done (r : Except CaldavError CalendarObject)

/-- One PUT attempt of `(*Client).PutCalendarObject` with the
`handleConflict` dispatch (client.go): encode the document (an encode
failure propagates); issue the conditional PUT built by `mkPutReq`; on
HTTP 412 — fail with `ErrPreconditionFailed` when no resolver is
configured, otherwise take the `handleConflict` path: a failed re-fetch
(`get`) propagates as a wrapped error; with the re-fetched remote, dispatch
on the resolver's decision applied to `conflictLocalObj` and the remote:
UseLocal yields `retry` (the write is re-issued), UseRemote returns the
fetched snapshot, Skip fails with `ErrPreconditionFailed`, Merge fails with
`ErrMergeNotSupported`.  On any other status, build a CalendarObject from
`{Path: path}` plus the response headers. -/
def putAttempt (enc : ICalEncoder) (resolver : Option ResolverM) (now : Int) (get : GetOutcome)
    (path : List Char) (cal : ICalendar) (opts : Option PutOptionsM)
    (t : PutReq → PutResp) : PutAttemptResult :=
  match enc cal with
  | .error m => .done (.error (.transport m))
  | .ok body =>
    let resp := t (mkPutReq opts body)
    if resp.status = 412 then
      match resolver with
      | none => .done (.error .preconditionFailed)
      | some f =>
        match get with
        | .err m => .done (.error (.getRemoteFailed m))
        | .ok remote =>
          match f (some (conflictLocalObj path now cal)) (some remote) with
          | .UseLocal => .retry
          | .UseRemote => .done (.ok remote)
          | .Skip => .done (.error .preconditionFailed)
          | .Merge => .done (.error .mergeNotSupported)
    else
      .done (.ok (populateCalendarObject
        { path := path, modTime := 0, contentLength := 0, etag := [], data := none } resp.headers))

/-- Model of `(*Client).PutCalendarObject`: run the attempts, a UseLocal
conflict decision re-issuing the write with nil options (the recursion in
`handleConflict`).  The transport is a list of response functions, one per
PUT actually issued; an exhausted list stands for a transport failure.
(The model supplies one `get` outcome; repeated conflicts would re-fetch
the same value, which no claim depends on.) -/
def putCalendarObjectM (enc : ICalEncoder) (resolver : Option ResolverM) (now : Int)
    (get : GetOutcome) (path : List Char) (cal : ICalendar) :
    Option PutOptionsM → List (PutReq → PutResp) → Except CaldavError CalendarObject
  | _, [] => .error (.transport "no response".toList)
  | opts, t :: rest =>
    match putAttempt enc resolver now get path cal opts t with
    | .retry => putCalendarObjectM enc resolver now get path cal none rest
    | .done r => r

theorem putAttempt_412_resolver :
    ∀ (enc : ICalEncoder) (f : ResolverM) (now : Int) (remote : CalendarObject) (path : List Char)
      (cal : ICalendar) (body : List Char) (opts : Option PutOptionsM) (t : PutReq → PutResp),
      enc cal = .ok body →
      (t (mkPutReq opts body)).status = 412 →
      putAttempt enc (some f) now (.ok remote) path cal opts t =
        match f (some (conflictLocalObj path now cal)) (some remote) with
        | .UseLocal => .retry
        | .UseRemote => .done (.ok remote)
        | .Skip => .done (.error .preconditionFailed)
        | .Merge => .done (.error .mergeNotSupported) := by
  intro enc f now remote path cal body opts t henc hst
  unfold putAttempt
  rw [henc]
  dsimp only
  rw [if_pos hst]

theorem putAttempt_412_noresolver :
    ∀ (enc : ICalEncoder) (now : Int) (get : GetOutcome) (path : List Char)
      (cal : ICalendar) (body : List Char) (opts : Option PutOptionsM) (t : PutReq → PutResp),
      enc cal = .ok body →
      (t (mkPutReq opts body)).status = 412 →
      putAttempt enc none now get path cal opts t = .done (.error .preconditionFailed) := by
  intro enc now get path cal body opts t henc hst
  unfold putAttempt
  rw [henc]
  dsimp only
  rw [if_pos hst]

theorem putM_412_dispatch :
    ∀ (enc : ICalEncoder) (f : ResolverM) (now : Int) (remote : CalendarObject) (path : List Char)
      (cal : ICalendar) (body : List Char) (opts : Option PutOptionsM)
      (t : PutReq → PutResp) (rest : List (PutReq → PutResp)),
      enc cal = .ok body →
      (t (mkPutReq opts body)).status = 412 →
      putCalendarObjectM enc (some f) now (.ok remote) path cal opts (t :: rest) =
        match f (some (conflictLocalObj path now cal)) (some remote) with
        | .UseLocal => putCalendarObjectM enc (some f) now (.ok remote) path cal none rest
        | .UseRemote => .ok remote
        | .Skip => .error .preconditionFailed
        | .Merge => .error .mergeNotSupported := by
  intro enc f now remote path cal body opts t rest henc hst
  conv_lhs => unfold putCalendarObjectM
  rw [putAttempt_412_resolver enc f now remote path cal body opts t henc hst]
  cases f (some (conflictLocalObj path now cal)) (some remote) <;> rfl

/-- C2: on an HTTP 412 PUT response — with no resolver configured the call
fails with `ErrPreconditionFailed`; with a resolver configured and the
re-fetch succeeding, the resolver's decision is executed: UseLocal
re-issues the write with nil options (hence no If-Match and no
If-None-Match header), UseRemote returns the freshly fetched remote
snapshot without another write, Skip fails with `ErrPreconditionFailed`,
and Merge fails with `ErrMergeNotSupported`. -/
theorem c2_precondition_conflict_flow :
    ∀ (enc : ICalEncoder) (f : ResolverM) (now : Int) (remote : CalendarObject) (path : List Char)
      (cal : ICalendar) (body : List Char) (opts : Option PutOptionsM)
      (t : PutReq → PutResp) (rest : List (PutReq → PutResp)),
      enc cal = .ok body →
      (t (mkPutReq opts body)).status = 412 →
      (putCalendarObjectM enc none now (.ok remote) path cal opts (t :: rest) =
        .error .preconditionFailed) ∧
      (f (some (conflictLocalObj path now cal)) (some remote) = .UseLocal →
        putCalendarObjectM enc (some f) now (.ok remote) path cal opts (t :: rest) =
          putCalendarObjectM enc (some f) now (.ok remote) path cal none rest ∧
        (mkPutReq none body).ifMatch = none ∧ (mkPutReq none body).ifNoneMatch = none) ∧
      (f (some (conflictLocalObj path now cal)) (some remote) = .UseRemote →
        putCalendarObjectM enc (some f) now (.ok remote) path cal opts (t :: rest) = .ok remote) ∧
      (f (some (conflictLocalObj path now cal)) (some remote) = .Skip →
        putCalendarObjectM enc (some f) now (.ok remote) path cal opts (t :: rest) =
          .error .preconditionFailed) ∧
      (f (some (conflictLocalObj path now cal)) (some remote) = .Merge →
        putCalendarObjectM enc (some f) now (.ok remote) path cal opts (t :: rest) =
          .error .mergeNotSupported) := by
  intro enc f now remote path cal body opts t rest henc hst
  refine ⟨?_, fun hdec => ⟨?_, rfl, rfl⟩, fun hdec => ?_, fun hdec => ?_, fun hdec => ?_⟩
  · unfold putCalendarObjectM
    rw [putAttempt_412_noresolver enc now (.ok remote) path cal body opts t henc hst]
  · rw [putM_412_dispatch enc f now remote path cal body opts t rest henc hst, hdec]
  · rw [putM_412_dispatch enc f now remote path cal body opts t rest henc hst, hdec]
  · rw [putM_412_dispatch enc f now remote path cal body opts t rest henc hst, hdec]
  · rw [putM_412_dispatch enc f now remote path cal body opts t rest henc hst, hdec]

/-- C10: whenever a configured resolver runs after a 412, the local object
it receives is exactly `conflictLocalObj` — Data is the submitted calendar,
ModTime is the wall-clock time at resolution, ETag and ContentLength are
zero-valued — and a LastModifiedWins resolver in this flow therefore
compares the current time against the re-fetched remote's ModTime. -/
theorem c10_conflict_local_object :
    ∀ (enc : ICalEncoder) (f : ResolverM) (now : Int) (remote : CalendarObject) (path : List Char)
      (cal : ICalendar) (body : List Char) (opts : Option PutOptionsM)
      (t : PutReq → PutResp) (rest : List (PutReq → PutResp)),
      enc cal = .ok body →
      (t (mkPutReq opts body)).status = 412 →
      (putCalendarObjectM enc (some f) now (.ok remote) path cal opts (t :: rest) =
        match f (some (conflictLocalObj path now cal)) (some remote) with
        | .UseLocal => putCalendarObjectM enc (some f) now (.ok remote) path cal none rest
        | .UseRemote => .ok remote
        | .Skip => .error .preconditionFailed
        | .Merge => .error .mergeNotSupported) ∧
      (conflictLocalObj path now cal).data = some cal ∧
      (conflictLocalObj path now cal).modTime = now ∧
      (conflictLocalObj path now cal).etag = [] ∧
      (conflictLocalObj path now cal).contentLength = 0 ∧
      (lastModifiedWinsResolve (some (conflictLocalObj path now cal)) (some remote) =
        if now > remote.modTime then .UseLocal
        else if remote.modTime > now then .UseRemote
        else .UseLocal) := by
  intro enc f now remote path cal body opts t rest henc hst
  exact ⟨putM_412_dispatch enc f now remote path cal body opts t rest henc hst,
    rfl, rfl, rfl, rfl, rfl⟩

/-- A concrete encoder for witnesses: serialise the opaque payload. -/
def encRaw : ICalEncoder := fun c => .ok c.raw

/-- A transport entry that always answers HTTP 412. -/
def t412 : PutReq → PutResp := fun _ => { status := 412, headers := ⟨none, [], none, none⟩ }

/-- A concrete submitted document for witnesses. -/
def calW : ICalendar := ⟨"BEGIN:VCALENDAR".toList⟩

/-- A concrete re-fetched remote snapshot for witnesses. -/
def remoteW : CalendarObject :=
  { path := "/c/e.ics".toList, modTime := 7, contentLength := 0, etag := "e2".toList, data := none }

/-- C2 witness: with an AlwaysUseRemote resolver, a concrete 412 exchange
returns the fetched remote snapshot. -/
theorem c2_precondition_conflict_flow_witness :
    putCalendarObjectM encRaw (some alwaysUseRemoteResolve) 0 (.ok remoteW)
      "/c/e.ics".toList calW none [t412] = .ok remoteW :=
  ((c2_precondition_conflict_flow encRaw alwaysUseRemoteResolve 0 remoteW
    "/c/e.ics".toList calW "BEGIN:VCALENDAR".toList none t412 [] rfl rfl).2.2.1) rfl

/-- C10 witness: the LastModifiedWins comparison at a concrete local time 9
against the concrete remote (ModTime 7). -/
theorem c10_conflict_local_object_witness :
    lastModifiedWinsResolve (some (conflictLocalObj "/c/e.ics".toList 9 calW)) (some remoteW) =
      if (9 : Int) > remoteW.modTime then ConflictDecision.UseLocal
      else if remoteW.modTime > (9 : Int) then ConflictDecision.UseRemote
      else ConflictDecision.UseLocal :=
  (c10_conflict_local_object encRaw alwaysUseRemoteResolve 9 remoteW
    "/c/e.ics".toList calW "BEGIN:VCALENDAR".toList none t412 [] rfl rfl).2.2.2.2.2

end Caldav
